import Mathlib

/-!
Shallow embedding of `src/lib/layer.js` from the generator-assets layer model:
the layer-variant tree, flattened-size arithmetic, lookup by id, insertion by
target flattened index, and the change-application protocol.
-/

/-- The leaf layer variants of `layer.js` (`Layer`, `BackgroundLayer`,
`ShapeLayer`, `TextLayer`, `AdjustmentLayer`, `SmartObjectLayer`).  All of them
inherit `getSize`, `setName`, `detach` and `_applyChange` from `BaseLayer`
unchanged; their extra attributes (`pixels`, `protection`, `fill`, `path`,
`text`, `adjustment`, `smartObject`, `timeContent`) are opaque payloads never
read by the core logic, so they are represented by the variant tag alone. -/
inductive LayerKind : Type where
  | layer
  | backgroundLayer
  | shapeLayer
  | textLayer
  | adjustmentLayer
  | smartObjectLayer
deriving DecidableEq, Repr

/-- A node of the layer tree: either a leaf variant or a `LayerGroup`.
Each node keeps the fields of `BaseLayer` that the core logic reads:
`id`, `name`, and the raw `index` stored at construction (never read
afterwards by `layer.js`, but kept for fidelity).  The `group`
back-reference is not part of the pure tree (ownership is structural here);
it is modelled separately where a claim observes it (see `detach`). -/
inductive Layer : Type where
  | leaf (kind : LayerKind) (id : String) (name : Option String) (index : Option Int)
  | group (id : String) (name : Option String) (index : Option Int) (layers : List Layer)
deriving Repr

/-- `this.id`. -/
def Layer.id : Layer → String
  | .leaf _ i _ _ => i
  | .group i _ _ _ => i

/-- `this.name` (`undefined` is `none`). -/
def Layer.name : Layer → Option String
  | .leaf _ _ n _ => n
  | .group _ n _ _ => n

/-- The `layers` array of a `LayerGroup` (a leaf has none). -/
def Layer.layers : Layer → List Layer
  | .leaf .. => []
  | .group _ _ _ ls => ls

/-- `child instanceof LayerGroup`. -/
def Layer.isGroup : Layer → Bool
  | .leaf .. => false
  | .group .. => true

mutual

/-- `BaseLayer.prototype.getSize` returns 1; `LayerGroup.prototype.getSize`
returns `this.layers.reduce((size, layer) => size + layer.getSize(), 2)`. -/
def getSize : Layer → Nat
  | .leaf .. => 1
  | .group _ _ _ ls => 2 + sizeList ls

/-- The `reduce` over the child list in `LayerGroup.prototype.getSize`. -/
def sizeList : List Layer → Nat
  | [] => 0
  | c :: rest => getSize c + sizeList rest

end

mutual

/-- `LayerGroup.prototype.findLayer(id)`: delegates to the scan over
`this.layers` starting at `currentIndex = 0`.  (In `layer.js` the method only
exists on `LayerGroup`; on a leaf the scan of an empty child list finds
nothing.) -/
def findLayer (g : Layer) (id : String) : Option (Layer × Nat) :=
  match g with
  | .leaf .. => none
  | .group _ _ _ ls => findInList ls id 0

/-- The `this.layers.some(...)` loop of `findLayer`, carrying `currentIndex`.
For a `LayerGroup` child the code first increments `currentIndex`, recurses,
and on a miss advances by `child.getSize() - 2`; it then falls through to the
`child.id === id` test (so a group child's own id is tested after the
recursion, at the already advanced index). -/
def findInList : List Layer → String → Nat → Option (Layer × Nat)
  | [], _, _ => none
  | child :: rest, id, currentIndex =>
    match child with
    | .group gi gn gidx gls =>
      let c1 := currentIndex + 1
      match findLayer (.group gi gn gidx gls) id with
      | some r => some (r.1, r.2 + c1)
      | none =>
        let c2 := c1 + (getSize (.group gi gn gidx gls) - 2)
        if gi = id then some (.group gi gn gidx gls, c2)
        else findInList rest id (c2 + 1)
    | .leaf k li ln lidx =>
      if li = id then some (.leaf k li ln lidx, currentIndex)
      else findInList rest id (currentIndex + 1)

end

mutual

/-- `LayerGroup.prototype.addLayerAtIndex(childToAdd, targetIndex)`:
runs the scan loop over `this.layers` with
`currentIndex = childToAdd.getSize() - 1`; on success returns the group with
the updated child list, `none` models the fatal
`assert.strictEqual(currentIndex, targetIndex)` (or the unknown-type style
fatal paths).  Indices are `Int` because change application can produce
negative relative indices. -/
def addLayerAtIndex (g : Layer) (childToAdd : Layer) (targetIndex : Int) : Option Layer :=
  match g with
  | .leaf .. => none
  | .group i n idx ls =>
    (addLoop ls childToAdd targetIndex ((getSize childToAdd : Int) - 1)).map
      (fun ls' => .group i n idx ls')

/-- The `for` loop of `addLayerAtIndex`.  At each child: break when
`targetIndex <= currentIndex` (then the trailing assertion demands equality
and the child is spliced in before the remaining children); otherwise compute
`nextIndex = currentIndex + child.getSize()`; if `targetIndex < nextIndex` and
the child is a group, recurse into it with `targetIndex - (currentIndex + 1)`;
otherwise continue with `currentIndex = nextIndex`.  After the loop the
assertion `currentIndex === targetIndex` must hold. -/
def addLoop : List Layer → Layer → Int → Int → Option (List Layer)
  | [], childToAdd, targetIndex, currentIndex =>
    if currentIndex = targetIndex then some [childToAdd] else none
  | child :: rest, childToAdd, targetIndex, currentIndex =>
    if targetIndex ≤ currentIndex then
      if currentIndex = targetIndex then some (childToAdd :: child :: rest) else none
    else
      let nextIndex := currentIndex + (getSize child : Int)
      if targetIndex < nextIndex ∧ child.isGroup then
        (addLayerAtIndex child childToAdd (targetIndex - (currentIndex + 1))).map
          (fun child' => child' :: rest)
      else
        (addLoop rest childToAdd targetIndex nextIndex).map (fun ls' => child :: ls')

end

/-- Replace this node's `name` field (`this.name = name`). -/
def Layer.withName : Layer → Option String → Layer
  | .leaf k i _ idx, n => .leaf k i n idx
  | .group i _ idx ls, n => .group i n idx ls

/-- `BaseLayer.prototype.setName(name)`.  The source reads

```js
if (this.name !== name) {
    var previousName = name;
    this.name = name;
    return ["rename", name, previousName];
}
```

so the `previousName` slot of the returned triple is assigned the *new*
name (`var previousName = name` runs after no capture of the old value),
which this embedding reproduces verbatim.  Returns the updated node and
the returned triple (`none` when the branch is not taken). -/
def setName (l : Layer) (name : String) : Layer × Option (String × String × String) :=
  if l.name ≠ some name then
    let previousName := name
    (l.withName (some name), some ("rename", name, previousName))
  else
    (l, none)

/-- What `BaseLayer.prototype._applyChange` pushes onto its `changes` array:
the code runs `changes.push(changes)`, pushing the array itself (a circular
reference) rather than the `result` of `setName`; that single possible
element is modelled by this marker. -/
inductive Pushed : Type where
  | selfRef
deriving DecidableEq, Repr

/-- `BaseLayer.prototype._applyChange(change)` (the per-node change applier,
reachable on leaf variants; `LayerGroup` shadows it).  The code:

```js
assert.strictEqual(this.id, change.id, "Layer ID mismatch.");
var changes = [], result;
if (change.hasOwnProperty("name")) {
    result = this.setName(change.name);
    if (change) {           // `change` is the record object: always truthy
        changes.push(changes);   // pushes the array into itself, not `result`
    }
}
return changes;
```

`none` models the fatal id-mismatch assertion.  Otherwise it returns the
(possibly renamed) node and the `changes` list, which contains the self
reference exactly when the record carries a `name` field — regardless of
whether anything changed. -/
def baseApplyChange (l : Layer) (changeId : String) (changeName : Option String) :
    Option (Layer × List Pushed) :=
  if l.id ≠ changeId then none
  else
    match changeName with
    | some nm =>
      let l' := (setName l nm).1
      some (l', [Pushed.selfRef])
    | none => some (l, [])

/-- The `parent.layers.some(...)` scan in `BaseLayer.prototype.detach`:
index of the first child whose `id` matches, if any. -/
def findIndexById : List Layer → String → Option Nat
  | [], _ => none
  | c :: rest, id =>
    if c.id = id then some 0 else (findIndexById rest id).map (· + 1)

/-- `parent.layers.splice(index, 1)`. -/
def spliceOut : List Layer → Nat → List Layer
  | [], _ => []
  | _ :: rest, 0 => rest
  | c :: rest, i + 1 => c :: spliceOut rest i

/-- `BaseLayer.prototype.detach()`, modelled on the pair of mutable locations
it touches: the node's `group` back-reference (here the referenced owner's
current child list, or `none` when the node has no group) and that list
itself.  If `this.group` is falsy the call is a no-op.  Otherwise the scan
finds the first child with this id; `assert(index > -1, ...)` failing is
`none` (fatal).  On success the owner's list is spliced; the source never
assigns `this.group`, so the back-reference in the result still designates
the (now spliced) former owner. -/
def detach (id : String) (group : Option (List Layer)) : Option (Option (List Layer)) :=
  match group with
  | none => some none
  | some layers =>
    match findIndexById layers id with
    | none => none
    | some i => some (some (spliceOut layers i))

/-- A raw layer descriptor / raw change record (`layer.js` passes change
records straight to `createLayer`, so the two share one shape).  `none`
models an absent field (`hasOwnProperty` false); `added` and `removed`
model the truthiness tests of those fields.  Opaque payload fields
(`bounds`, `visible`, `clipped`, `mask`, `generatorSettings`, `pixels`,
`protection`, `fill`, `path`, `text`, `adjustment`, `smartObject`,
`timeContent`, `blendOptions`) are never read by the core logic and are
omitted. -/
structure RawLayer : Type where
  id : String
  type : Option String := none
  index : Option Int := none
  name : Option String := none
  added : Bool := false
  removed : Bool := false
  layers : Option (List RawLayer)
deriving Repr

/-- The comparator `l1.index - l2.index` used by the in-place sorts.  When
either record lacks `index` the JS comparator yields `NaN`, which `sort`
treats as 0 (keep relative order); this stable insertion sort does the
same by not moving such records past each other. -/
def leIdx (r1 r2 : RawLayer) : Bool :=
  match r1.index, r2.index with
  | some a, some b => a ≤ b
  | _, _ => true

/-- One insertion step of the stable sort by raw `index`. -/
def insertSorted (r : RawLayer) : List RawLayer → List RawLayer
  | [] => [r]
  | x :: xs => if leIdx x r then x :: insertSorted r xs else r :: x :: xs

/-- `array.sort((l1, l2) => l1.index - l2.index)` as a stable insertion
sort. -/
def sortByIndex : List RawLayer → List RawLayer
  | [] => []
  | r :: rs => insertSorted r (sortByIndex rs)

mutual

/-- `createLayer(parent, rawLayer)`.  `hasParent` is the truthiness of the
`parent` argument.  A root (no parent, no `type` field) and a
`"layerSection"` build a `LayerGroup`; the other recognized tags build the
matching leaf variant; `none` models the fatal
`throw new Error("Unknown layer type: ...")`.  `fuel` bounds the nesting
depth of descriptors (the JS recursion is bounded by the input's nesting);
`none` on exhausted fuel. -/
def createLayer : Nat → Bool → RawLayer → Option Layer
  | 0, _, _ => none
  | fuel + 1, hasParent, raw =>
    if !hasParent && raw.type.isNone then buildGroup fuel raw
    else
      match raw.type with
      | some "layerSection" => buildGroup fuel raw
      | some "layer" => some (.leaf .layer raw.id raw.name raw.index)
      | some "shapeLayer" => some (.leaf .shapeLayer raw.id raw.name raw.index)
      | some "textLayer" => some (.leaf .textLayer raw.id raw.name raw.index)
      | some "adjustmentLayer" => some (.leaf .adjustmentLayer raw.id raw.name raw.index)
      | some "smartObjectLayer" => some (.leaf .smartObjectLayer raw.id raw.name raw.index)
      | some "backgroundLayer" => some (.leaf .backgroundLayer raw.id raw.name raw.index)
      | _ => none

/-- The `LayerGroup` constructor: start from an empty child list; when the
descriptor has a `layers` field, sort it ascending by raw `index` and insert
each built child through `this.addLayerAtIndex` at the running target
`targetIndex += layer.getSize() - 1`, then `targetIndex++`. -/
def buildGroup : Nat → RawLayer → Option Layer
  | 0, _ => none
  | fuel + 1, raw =>
    match raw.layers with
    | none => some (.group raw.id raw.name raw.index [])
    | some rls =>
      (buildChildren fuel (sortByIndex rls) 0 []).map
        (fun ls => .group raw.id raw.name raw.index ls)

/-- The `forEach` of the `LayerGroup` constructor, carrying the running
`targetIndex` and the already inserted children (the group's `this.layers`);
each insertion goes through the `addLayerAtIndex` scan (`addLoop` on the
accumulated list). -/
def buildChildren : Nat → List RawLayer → Int → List Layer → Option (List Layer)
  | 0, _, _, _ => none
  | _ + 1, [], _, acc => some acc
  | fuel + 1, r :: rs, targetIndex, acc =>
    match createLayer fuel true r with
    | none => none
    | some layer =>
      let t := targetIndex + (getSize layer : Int) - 1
      match addLoop acc layer t ((getSize layer : Int) - 1) with
      | none => none
      | some acc' => buildChildren fuel rs (t + 1) acc'

end

/-- The caller-supplied `changedLayers` table: id, paired with the entry's
`layer` field (`none` when the entry exists but its `layer` field is unset).
The `previousGroup` field written during placement is never read again in
`layer.js` and is omitted.  An id absent from the list models
`!changedLayers.hasOwnProperty(id)`. -/
abbrev ChangedLayers : Type := List (String × Option Layer)

/-- `changedLayers[id]` (`none` when no entry exists). -/
def mapGet : ChangedLayers → String → Option (Option Layer)
  | [], _ => none
  | (k, v) :: rest, id => if k = id then some v else mapGet rest id

/-- `changedLayers[id].layer = child`.  When no entry exists under `id`,
`changedLayers[id]` is `undefined` and the field write throws a `TypeError`:
that fatal outcome is `none` — the assignment never creates an entry. -/
def mapSet : ChangedLayers → String → Layer → Option ChangedLayers
  | [], _, _ => none
  | (k, v) :: rest, id, l =>
    if k = id then some ((k, some l) :: rest)
    else (mapSet rest id l).map (fun m => (k, v) :: m)

/-- The second (`placement`) `forEach` of the Change Applicator: for each
record that has an `index` and is not `removed`, look its id up in the map —
a missing entry is the recoverable `console.warn("Skipping group end layer:",
id)` skip; an entry with an unset `layer` field makes `child.group` throw on
`undefined` (fatal); otherwise `this.addLayerAtIndex(child, rawLayerChange.index
- offset)` (its failed assertion is fatal).  The `previousGroup` bookkeeping
write is not observable in `layer.js` and is dropped. -/
def placement : List RawLayer → ChangedLayers → Layer → Int → Option Layer
  | [], _, g, _ => some g
  | r :: rs, m, g, offset =>
    match r.index with
    | none => placement rs m g offset
    | some rawIndex =>
      if r.removed then placement rs m g offset
      else
        match mapGet m r.id with
        | none => placement rs m g offset
        | some none => none
        | some (some child) =>
          match addLayerAtIndex g child (rawIndex - offset) with
          | none => none
          | some g' => placement rs m g' offset

mutual

/-- The first (`materialize`) `forEach` of
`LayerGroup.prototype._applyChange(changedLayers, rawLayerChanges,
parentIndex)`, over the records sorted by `index`, threading the map and the
running `finalSize`.  A record without `index` is skipped.  An `added` record
is built with `createLayer` and stored into the `layer` field of its existing
map entry (fatal if the entry is absent, see `mapSet`).  Otherwise the id is
looked up: absent and `removed` skips the record; absent and not `removed` is
the fatal `throw new Error("Can't find changed layer:", id)`; present reuses
the entry (`materializeCont`). -/
def materialize : Nat → List RawLayer → ChangedLayers → Nat → Option (ChangedLayers × Nat)
  | 0, _, _, _ => none
  | _ + 1, [], m, finalSize => some (m, finalSize)
  | fuel + 1, r :: rs, m, finalSize =>
    if r.index.isNone then materialize fuel rs m finalSize
    else if r.added then
      match createLayer fuel true r with
      | none => none
      | some child =>
        match mapSet m r.id child with
        | none => none
        | some m' => materializeCont fuel r rs m' finalSize (some child)
    else
      match mapGet m r.id with
      | none =>
        if r.removed then materialize fuel rs m finalSize else none
      | some entryLayer => materializeCont fuel r rs m finalSize entryLayer

/-- The tail of one materialize-phase record, after `child` has been
resolved (`child = none` models an entry whose `layer` field is unset, i.e.
`undefined`).  When the record carries nested `layers`,
`child._applyChange(changedLayers, rawLayerChange.layers,
rawLayerChange.index)` is invoked: fatal on an `undefined` child; on a leaf
child the call hits the three-argument `BaseLayer._applyChange`, whose
`assert.strictEqual(this.id, change.id)` compares a string with
`changedLayers.id === undefined` and fails fatally; on a group child it
recurses, and because the JS recursion mutates the shared node, the map
entry is rewritten with the updated child.  Finally, unless the record is
`removed`, `finalSize += child.getSize()` (fatal on an `undefined`
child). -/
def materializeCont : Nat → RawLayer → List RawLayer → ChangedLayers → Nat →
    Option Layer → Option (ChangedLayers × Nat)
  | 0, _, _, _, _, _ => none
  | fuel + 1, r, rs, m, finalSize, childEntry =>
    let afterNested : Option (ChangedLayers × Option Layer) :=
      match r.layers with
      | none => some (m, childEntry)
      | some nested =>
        match childEntry with
        | none => none
        | some child =>
          match child with
          | .leaf .. => none
          | .group gi gn gidx gls =>
            match groupApplyChange fuel (.group gi gn gidx gls) m nested r.index with
            | none => none
            | some (child', m₂) =>
              match mapSet m₂ r.id child' with
              | none => none
              | some m₃ => some (m₃, some child')
    match afterNested with
    | none => none
    | some (m', childEntry') =>
      if r.removed then materialize fuel rs m' finalSize
      else
        match childEntry' with
        | none => none
        | some child' => materialize fuel rs m' (finalSize + getSize child')

/-- `LayerGroup.prototype._applyChange(changedLayers, rawLayerChanges,
parentIndex)` (the Change Applicator): sort the records by raw `index`, run
the materialize phase seeded with this group's current `getSize()`, compute
`offset = parentIndex === undefined ? 0 : parentIndex - (finalSize - 2)`, and
run the placement phase.  Calling it on a leaf (a nested `layers` record
addressed at a leaf node) hits the shadowed base method with mismatched
arguments — fatal, see `materializeCont`. -/
def groupApplyChange : Nat → Layer → ChangedLayers → List RawLayer → Option Int →
    Option (Layer × ChangedLayers)
  | 0, _, _, _, _ => none
  | fuel + 1, g, m, rawLayerChanges, parentIndex =>
    match g with
    | .leaf .. => none
    | .group gi gn gidx gls =>
      let sorted := sortByIndex rawLayerChanges
      match materialize fuel sorted m (getSize (.group gi gn gidx gls)) with
      | none => none
      | some (m', finalSize) =>
        let offset : Int :=
          match parentIndex with
          | none => 0
          | some pi => pi - ((finalSize : Int) - 2)
        match placement sorted m' (.group gi gn gidx gls) offset with
        | none => none
        | some g' => some (g', m')

end

/-- The snapshot leaf `{id:"A", index:0, type:"layer"}` as built. -/
def leafA : Layer := .leaf .layer "A" none (some 0)

/-- The snapshot leaf `{id:"B", index:0, type:"layer"}` as built. -/
def leafB : Layer := .leaf .layer "B" none (some 0)

/-- The snapshot group `{id:"G", index:1, type:"layerSection", layers:[B]}`. -/
def groupG : Layer := .group "G" none (some 1) [leafB]

/-- The spec's snapshot tree `root[A, G[B]]`. -/
def rootT : Layer := .group "root" none none [leafA, groupG]

/-- The raw snapshot descriptor of `rootT`. -/
def rootRaw : RawLayer :=
  { id := "root",
    layers := some
      [{ id := "A", index := some 0, type := some "layer", layers := none },
       { id := "G", index := some 1, type := some "layerSection",
         layers := some [{ id := "B", index := some 0, type := some "layer", layers := none }] }] }

mutual

/-- All ids occurring in a subtree (the node's own id first, then its
descendants in order). -/
def idsOf : Layer → List String
  | .leaf _ i _ _ => [i]
  | .group i _ _ ls => i :: idsList ls

/-- All ids occurring in a forest, left to right. -/
def idsList : List Layer → List String
  | [] => []
  | c :: rest => idsOf c ++ idsList rest

end

mutual

/-- Modelled from the spec: the glossary's *flattened index* — "the position
a node (or, for composites, its opening marker) occupies in the host's
single linear ordering".  `flatFindList id ls` returns the first node with
this id in the forest `ls` together with that position, counting from 0 at
the start of the forest: a leaf occupies one slot, a composite occupies its
opening marker, then its children shifted by one, then its closing marker
(`getSize` slots in total). -/
def flatFindList (id : String) : List Layer → Option (Layer × Nat)
  | [] => none
  | c :: rest =>
    match flatFindIn id c with
    | some r => some r
    | none => (flatFindList id rest).map (fun r => (r.1, r.2 + getSize c))

/-- Modelled from the spec: the flattened position of `id` within a single
subtree whose root starts at position 0 — the root itself at 0 (its opening
marker), or a descendant at its children-forest position plus one. -/
def flatFindIn (id : String) : Layer → Option (Layer × Nat)
  | .leaf k i n idx => if i = id then some (.leaf k i n idx, 0) else none
  | .group i n idx ls =>
    if i = id then some (.group i n idx ls, 0)
    else (flatFindList id ls).map (fun r => (r.1, r.2 + 1))

end

/-- Every node occupies at least one flattened slot. -/
theorem getSize_pos : ∀ l : Layer, 1 ≤ getSize l
  | .leaf .. => le_refl 1
  | .group _ _ _ _ => by simp [getSize]; omega

/-- A composite occupies at least its two markers. -/
theorem getSize_group_ge_two (i : String) (n : Option String) (idx : Option Int)
    (ls : List Layer) : 2 ≤ getSize (.group i n idx ls) := by
  simp [getSize]

/-- The `reduce` accumulator agrees with the sum of the children's sizes. -/
theorem sizeList_eq_sum : ∀ ls : List Layer, sizeList ls = (ls.map getSize).sum
  | [] => rfl
  | c :: rest => by simp [sizeList, sizeList_eq_sum rest]

mutual

/-- An id that occurs nowhere in a subtree has no flattened position in it. -/
theorem notMem_flatFindIn (id : String) : ∀ c : Layer, id ∉ idsOf c → flatFindIn id c = none
  | .leaf k i n idx, h => by
    have hne : ¬ i = id := by
      simp [idsOf] at h
      exact fun e => h e.symm
    simp [flatFindIn, hne]
  | .group i n idx ls, h => by
    have h' : ¬ id = i ∧ id ∉ idsList ls := by simpa [idsOf] using h
    have hne : ¬ i = id := fun e => h'.1 e.symm
    simp [flatFindIn, hne, notMem_flatFindList id ls h'.2]

/-- An id that occurs nowhere in a forest has no flattened position in it. -/
theorem notMem_flatFindList (id : String) :
    ∀ ls : List Layer, id ∉ idsList ls → flatFindList id ls = none
  | [], _ => rfl
  | c :: rest, h => by
    have h' : id ∉ idsOf c ∧ id ∉ idsList rest := by simpa [idsList] using h
    simp [flatFindList, notMem_flatFindIn id c h'.1, notMem_flatFindList id rest h'.2]

end

/-- Scanning past every child of the list lands the running index at
`cur + sizeList ls`, so that target appends: the scan can neither break
(each child's size is positive) nor recurse (the target is never strictly
inside a scanned child's span). -/
theorem addLoop_append : ∀ (ls : List Layer) (child : Layer) (cur : Int),
    addLoop ls child (cur + (sizeList ls : Int)) cur = some (ls ++ [child])
  | [], child, cur => by simp [addLoop, sizeList]
  | c :: rest, child, cur => by
    have hc : 1 ≤ getSize c := getSize_pos c
    have hnotle : ¬ (cur + (sizeList (c :: rest) : Int) ≤ cur) := by
      simp [sizeList]
      omega
    have hnotlt : ¬ (cur + (sizeList (c :: rest) : Int) < cur + (getSize c : Int)
        ∧ c.isGroup = true) := by
      rintro ⟨hlt, -⟩
      simp [sizeList] at hlt
      omega
    have harg : cur + (sizeList (c :: rest) : Int)
        = (cur + (getSize c : Int)) + (sizeList rest : Int) := by
      simp [sizeList]
      ring
    simp only [addLoop, hnotle, if_false, hnotlt]
    rw [harg, addLoop_append rest child (cur + (getSize c : Int))]
    simp

/-- Under id-uniqueness, the `findLayer` scan returns the first node carrying
the id together with the position of that node's *last* occupied flattened
slot: its true flattened position plus `getSize - 1` (for a leaf that is the
position itself, for a composite its closing marker). -/
theorem findInList_eq_flat (id : String) :
    ∀ (ls : List Layer) (cur : Nat), (idsList ls).Nodup →
      findInList ls id cur
        = (flatFindList id ls).map (fun r => (r.1, cur + r.2 + (getSize r.1 - 1)))
  | [], _, _ => rfl
  | c :: rest, cur, h => by
    have hnd : (idsOf c).Nodup ∧ (idsList rest).Nodup := by
      have := by simpa [idsList, List.nodup_append] using h
      exact ⟨this.1, this.2.1⟩
    cases c with
    | leaf k li ln lidx =>
      by_cases hid : li = id
      · subst hid
        simp [findInList, flatFindList, flatFindIn, getSize]
      · simp only [findInList, flatFindList, flatFindIn, hid, if_false]
        rw [findInList_eq_flat id rest (cur + 1) hnd.2]
        cases hrest : flatFindList id rest with
        | none => simp
        | some r =>
          have h1 := getSize_pos r.1
          simp [getSize, Prod.ext_iff]
          omega
    | group gi gn gidx gls =>
      have hgnd : gi ∉ idsList gls ∧ (idsList gls).Nodup := by
        simpa [idsOf, List.nodup_cons] using hnd.1
      have hrec := findInList_eq_flat id gls 0 hgnd.2
      by_cases hid : gi = id
      · have hnotin : id ∉ idsList gls := hid ▸ hgnd.1
        have hfl : flatFindList id gls = none := notMem_flatFindList id gls hnotin
        have hfi : findInList gls id 0 = none := by rw [hrec, hfl]; rfl
        simp [findInList, findLayer, hfi, flatFindList, flatFindIn, hid, getSize]
        omega
      · cases hgl : flatFindList id gls with
        | some r =>
          have h1 := getSize_pos r.1
          simp [findInList, findLayer, hrec, hgl, flatFindList, flatFindIn, hid,
            Prod.ext_iff, getSize]
          omega
        | none =>
          have hfi : findInList gls id 0 = none := by rw [hrec, hgl]; rfl
          have hsz : cur + 1 + (getSize (Layer.group gi gn gidx gls) - 2) + 1
              = cur + getSize (Layer.group gi gn gidx gls) := by
            simp [getSize]
            omega
          simp only [findInList, findLayer, hfi, hid, if_false]
          rw [hsz, findInList_eq_flat id rest (cur + getSize (Layer.group gi gn gidx gls))
            hnd.2]
          simp only [flatFindList, flatFindIn, hid, if_false, hgl, Option.map_none']
          cases hrest : flatFindList id rest with
          | none => simp
          | some r =>
            have h1 := getSize_pos r.1
            simp [Prod.ext_iff, getSize]
            omega

/-- A node that is not a group is a leaf and occupies one flattened slot. -/
theorem getSize_of_leaf : ∀ n : Layer, n.isGroup = false → getSize n = 1
  | .leaf .., _ => rfl
  | .group .., h => by simp [Layer.isGroup] at h

/-- Searching a subtree for its own root's id finds the root at position 0. -/
theorem flatFindIn_self : ∀ n : Layer, flatFindIn n.id n = some (n, 0)
  | .leaf .. => by simp [flatFindIn, Layer.id]
  | .group .. => by simp [flatFindIn, Layer.id]

/-- For a *leaf* insert with a fresh id, a successful `addLoop` scan entered
at running index `cur` leaves the leaf at flattened position `t - cur`
relative to the start of the scanned list (through any recursion into nested
groups, since a leaf contributes `getSize - 1 = 0` to the running index). -/
theorem addLoop_flat_leaf :
    ∀ (ls : List Layer) (n : Layer) (t cur : Int) (ls' : List Layer),
      n.isGroup = false → n.id ∉ idsList ls → addLoop ls n t cur = some ls' →
      ∃ p : Nat, flatFindList n.id ls' = some (n, p) ∧ (p : Int) = t - cur
  | [], n, t, cur, ls', _, _, hadd => by
    simp only [addLoop] at hadd
    by_cases hct : cur = t
    · rw [if_pos hct] at hadd
      injection hadd with hadd
      subst hadd
      exact ⟨0, by simp [flatFindList, flatFindIn_self], by omega⟩
    · rw [if_neg hct] at hadd
      exact absurd hadd (by simp)
  | c :: rest, n, t, cur, ls', hleaf, hfresh, hadd => by
    have hfr : n.id ∉ idsOf c ∧ n.id ∉ idsList rest := by
      simpa [idsList] using hfresh
    simp only [addLoop] at hadd
    by_cases hle : t ≤ cur
    · rw [if_pos hle] at hadd
      by_cases heq : cur = t
      · rw [if_pos heq] at hadd
        injection hadd with hadd
        subst hadd
        exact ⟨0, by simp [flatFindList, flatFindIn_self], by omega⟩
      · rw [if_neg heq] at hadd
        exact absurd hadd (by simp)
    · rw [if_neg hle] at hadd
      by_cases hin : t < cur + (getSize c : Int) ∧ c.isGroup = true
      · rw [if_pos hin] at hadd
        cases c with
        | leaf k li ln lidx => simp [Layer.isGroup] at hin
        | group gi gn gidx gls =>
          cases haa : addLayerAtIndex (.group gi gn gidx gls) n (t - (cur + 1)) with
          | none => rw [haa] at hadd; simp at hadd
          | some c' =>
            rw [haa] at hadd
            simp only [Option.map_some', Option.some.injEq] at hadd
            simp only [addLayerAtIndex] at haa
            cases hal : addLoop gls n (t - (cur + 1)) ((getSize n : Int) - 1) with
            | none => rw [hal] at haa; simp at haa
            | some gls' =>
              rw [hal] at haa
              simp only [Option.map_some', Option.some.injEq] at haa
              have hne : ¬ gi = n.id ∧ n.id ∉ idsList gls := by
                have := hfr.1
                simp [idsOf] at this
                exact ⟨fun e => this.1 e.symm, this.2⟩
              obtain ⟨p', hp', hv⟩ :=
                addLoop_flat_leaf gls n (t - (cur + 1)) ((getSize n : Int) - 1) gls'
                  hleaf hne.2 hal
              refine ⟨p' + 1, ?_, ?_⟩
              · subst hadd
                rw [← haa]
                simp [flatFindList, flatFindIn, hne.1, hp']
              · have hs := getSize_of_leaf n hleaf
                rw [hs] at hv
                push_cast at hv ⊢
                omega
      · rw [if_neg hin] at hadd
        cases hal : addLoop rest n t (cur + (getSize c : Int)) with
        | none => rw [hal] at hadd; simp at hadd
        | some rest' =>
          rw [hal] at hadd
          simp only [Option.map_some', Option.some.injEq] at hadd
          obtain ⟨p', hp', hv⟩ :=
            addLoop_flat_leaf rest n t (cur + (getSize c : Int)) rest' hleaf hfr.2 hal
          refine ⟨p' + getSize c, ?_, ?_⟩
          · subst hadd
            simp [flatFindList, notMem_flatFindIn n.id c hfr.1, hp']
          · push_cast at hv ⊢
            omega

/-- A child list that nowhere carries the id yields no detach scan index. -/
theorem findIndexById_eq_none (id : String) :
    ∀ ls : List Layer, id ∉ ls.map Layer.id → findIndexById ls id = none
  | [], _ => rfl
  | c :: rest, h => by
    have h' : ¬ id = c.id ∧ id ∉ rest.map Layer.id := by simpa using h
    have hne : ¬ c.id = id := fun e => h'.1 e.symm
    simp [findIndexById, hne, findIndexById_eq_none id rest h'.2]

/-- When the id occurs exactly once in the child list, the detach scan finds
an index, and splicing that index out removes the id entirely. -/
theorem count_one_splice (id : String) :
    ∀ ls : List Layer, (ls.map Layer.id).count id = 1 →
      ∃ i, findIndexById ls id = some i ∧ id ∉ (spliceOut ls i).map Layer.id
  | [], h => by simp at h
  | c :: rest, h => by
    by_cases hc : c.id = id
    · have hz : (rest.map Layer.id).count id = 0 := by
        simp [List.count_cons, hc] at h
        exact h
      refine ⟨0, by simp [findIndexById, hc], ?_⟩
      have := List.count_eq_zero.mp hz
      simpa [spliceOut] using this
    · have hr : (rest.map Layer.id).count id = 1 := by
        simpa [List.count_cons, hc] using h
      obtain ⟨i, h1, h2⟩ := count_one_splice id rest hr
      refine ⟨i + 1, by simp [findIndexById, hc, h1], ?_⟩
      simp [spliceOut, h2]
      exact fun e => hc e.symm

/-- `mapGet`/`mapSet` agree on missing entries: writing the `layer` field of
an absent entry is the fatal `TypeError`. -/
theorem mapSet_eq_none (id : String) (l : Layer) :
    ∀ m : ChangedLayers, mapGet m id = none → mapSet m id l = none
  | [], _ => rfl
  | (k, v) :: rest, h => by
    simp only [mapGet] at h
    by_cases hk : k = id
    · rw [if_pos hk] at h
      exact absurd h (by simp)
    · rw [if_neg hk] at h
      simp [mapSet, hk, mapSet_eq_none id l rest h]

/-- C1: for every tree of layer nodes, `getSize()` of a composite group
equals 2 plus the sum of its children's `getSize()` values, and `getSize()`
of every leaf variant equals 1. -/
theorem C1_getSize :
    (∀ (k : LayerKind) (i : String) (n : Option String) (idx : Option Int),
      getSize (.leaf k i n idx) = 1)
    ∧ (∀ (i : String) (n : Option String) (idx : Option Int) (ls : List Layer),
      getSize (.group i n idx ls) = 2 + (ls.map getSize).sum) :=
  ⟨fun _ _ _ _ => rfl, fun _ _ _ ls => by simp [getSize, sizeList_eq_sum]⟩

/-- C2, counterexample: in the snapshot tree `root[A, G[B]]`, `findLayer("G")`
on the root returns index 3 — the position of G's *closing* marker — while
G's true flattened position (its opening marker, per the spec glossary) is 1.
So the claim that the returned index equals the opening-marker position of a
composite is false on the code. -/
theorem C2_findLayer_counterexample :
    findLayer rootT "G" = some (groupG, 3)
    ∧ flatFindList "G" rootT.layers = some (groupG, 1)
    ∧ (3 : Nat) ≠ 1 :=
  ⟨rfl, rfl, by decide⟩

/-- C2, amended: for every composite with id-unique subtrees, `findLayer(id)`
returns the node carrying the id together with the position of its *last*
occupied flattened slot relative to the composite — the true flattened
position plus `getSize - 1`; for a leaf (size 1) that is exactly the true
flattened position, for a composite it is the closing marker.  If the id is
absent from the subtree, `findLayer` returns nothing (the `map` of `none`). -/
theorem C2_findLayer_amended (i : String) (n : Option String) (idx : Option Int)
    (ls : List Layer) (id : String) (h : (idsList ls).Nodup) :
    findLayer (.group i n idx ls) id
      = (flatFindList id ls).map (fun r => (r.1, r.2 + (getSize r.1 - 1))) := by
  simp only [findLayer]
  rw [findInList_eq_flat id ls 0 h]
  cases flatFindList id ls with
  | none => rfl
  | some r => simp

/-- Witness for C2: the amended statement evaluated on `root[A, G[B]]` with
id "B" (in particular it yields `findLayer("B") = some (B, 2)`). -/
theorem C2_findLayer_amended_witness :
    (idsList [leafA, groupG]).Nodup
    ∧ findLayer (.group "root" none none [leafA, groupG]) "B"
        = (flatFindList "B" [leafA, groupG]).map (fun r => (r.1, r.2 + (getSize r.1 - 1))) :=
  ⟨by decide, C2_findLayer_amended "root" none none [leafA, groupG] "B" (by decide)⟩

/-- C3, counterexample: inserting the empty composite H into `g[A]` at target
index 1 succeeds and places H *first*, at flattened position 0, not 1: the
claim that a successful `addLayerAtIndex(n, t)` always leaves n at flattened
position `t` fails for composite nodes. -/
theorem C3_addLayer_counterexample :
    addLayerAtIndex (.group "g" none none [leafA]) (.group "H" none none []) 1
      = some (.group "g" none none [.group "H" none none [], leafA])
    ∧ flatFindList "H" [.group "H" none none [], leafA] = some (.group "H" none none [], 0)
    ∧ (0 : Int) ≠ 1 :=
  ⟨rfl, rfl, by decide⟩

/-- C3, amended: for a *leaf* node n with fresh id, a successful
`addLayerAtIndex(n, t)` (directly or through the recursive descent with
translated index `t - (currentIndex + 1)`) leaves n at flattened position
exactly `t` within the composite; when the scan ends with the running index
different from `t`, the call fails fatally (returns `none`) without
inserting.  (For a composite n the landing position is shifted: each
receiving level places n so that its *last* occupied slot matches that
level's target, per the counterexample.) -/
theorem C3_addLayer_amended (g n : Layer) (t : Int) (g' : Layer)
    (hleaf : n.isGroup = false) (hfresh : n.id ∉ idsOf g)
    (hadd : addLayerAtIndex g n t = some g') :
    ∃ p : Nat, flatFindList n.id g'.layers = some (n, p) ∧ (p : Int) = t := by
  cases g with
  | leaf k i nm idx => simp [addLayerAtIndex] at hadd
  | group i nm idx ls =>
    have hfr : n.id ∉ idsList ls := by
      simp [idsOf] at hfresh
      exact hfresh.2
    simp only [addLayerAtIndex] at hadd
    cases hal : addLoop ls n t ((getSize n : Int) - 1) with
    | none => rw [hal] at hadd; exact absurd hadd (by simp)
    | some ls' =>
      rw [hal] at hadd
      simp only [Option.map_some', Option.some.injEq] at hadd
      obtain ⟨p, hp, hv⟩ :=
        addLoop_flat_leaf ls n t ((getSize n : Int) - 1) ls' hleaf hfr hal
      subst hadd
      refine ⟨p, by simpa [Layer.layers] using hp, ?_⟩
      rw [getSize_of_leaf n hleaf] at hv
      push_cast at hv ⊢
      omega

/-- Witness for C3: inserting the fresh leaf C into `root[A, G[B]]` at target
index 4 leaves it at flattened position 4. -/
theorem C3_addLayer_amended_witness :
    ((Layer.leaf .layer "C" none none).isGroup = false)
    ∧ ((Layer.leaf .layer "C" none none).id ∉ idsOf rootT)
    ∧ addLayerAtIndex rootT (.leaf .layer "C" none none) 4
        = some (.group "root" none none [leafA, groupG, .leaf .layer "C" none none])
    ∧ ∃ p : Nat,
        flatFindList (Layer.leaf .layer "C" none none).id
            (Layer.layers (.group "root" none none [leafA, groupG, .leaf .layer "C" none none]))
          = some (.leaf .layer "C" none none, p) ∧ (p : Int) = 4 :=
  ⟨rfl, by decide, rfl,
    C3_addLayer_amended rootT (.leaf .layer "C" none none) 4
      (.group "root" none none [leafA, groupG, .leaf .layer "C" none none])
      rfl (by decide) rfl⟩

/-- C4: the code contradicts the claim — `setName("B")` on a node whose name
is "A" returns `["rename", "B", "B"]`: the previous-name slot carries the
*new* name ("B"), not the name held immediately before the call ("A"),
because `var previousName = name` captures the argument instead of
`this.name`.  (The no-op direction of the claim does hold: same name returns
nothing.) -/
theorem C4_setName_eval :
    Layer.name (.leaf .layer "X" (some "A") none) = some "A"
    ∧ setName (.leaf .layer "X" (some "A") none) "B"
        = (.leaf .layer "X" (some "B") none, some ("rename", "B", "B"))
    ∧ ("B" : String) ≠ "A"
    ∧ setName (.leaf .layer "X" (some "A") none) "A"
        = (.leaf .layer "X" (some "A") none, none) :=
  ⟨rfl, rfl, by decide, rfl⟩

/-- C5: the code contradicts the claim — `_applyChange` on a record whose
`name` equals the current name still returns a one-element list (the code
pushes the `changes` array into itself under the always-true test
`if (change)`), so the returned list is neither empty when nothing changed
nor does it contain the rename result when the name did change. -/
theorem C5_applyChange_eval :
    baseApplyChange (.leaf .layer "X" (some "A") none) "X" (some "A")
      = some (.leaf .layer "X" (some "A") none, [Pushed.selfRef])
    ∧ [Pushed.selfRef] ≠ ([] : List Pushed)
    ∧ baseApplyChange (.leaf .layer "X" (some "A") none) "X" (some "B")
      = some (.leaf .layer "X" (some "B") none, [Pushed.selfRef]) :=
  ⟨rfl, by decide, rfl⟩

/-- C6, counterexample: on the empty composite (size 2), inserting a leaf at
`getSize() - 1 = 1` does not append — it fails the trailing assertion
(`none`), because the scan's running index starts at `n.getSize() - 1` and
ends at `getSize() - 2 + (n.getSize() - 1) = 0 ≠ 1`. -/
theorem C6_append_counterexample :
    ((getSize (.group "g" none none []) : Int) - 1 = 1)
    ∧ addLayerAtIndex (.group "g" none none []) (.leaf .layer "n" none none) 1 = none :=
  ⟨by decide, rfl⟩

/-- C6, amended: for every composite g and node n, `addLayerAtIndex(n, t)`
with `t = g.getSize() - 2 + (n.getSize() - 1)` (for a leaf: `getSize() - 2`;
equal to `getSize() - 1` only when n has size 2) succeeds and appends n as
g's last direct child. -/
theorem C6_append_amended (i : String) (n : Option String) (idx : Option Int)
    (ls : List Layer) (child : Layer) :
    addLayerAtIndex (.group i n idx ls) child
        (((getSize (.group i n idx ls) : Int) - 2) + ((getSize child : Int) - 1))
      = some (.group i n idx (ls ++ [child])) := by
  have harg : (((getSize (.group i n idx ls) : Int) - 2) + ((getSize child : Int) - 1))
      = ((getSize child : Int) - 1) + (sizeList ls : Int) := by
    simp [getSize]
    ring
  simp only [addLayerAtIndex]
  rw [harg, addLoop_append ls child ((getSize child : Int) - 1)]
  rfl

/-- C7, counterexample: applying the batch `[{id:"C", index:5, added:true}]`
at the root of `root[A, G[B]]` fails fatally instead of succeeding — as
written the record has no `type` (unknown-type fatal in `createLayer`), and
even under the favorable reading (type `"layer"` supplied and an entry for
"C" registered in `changedLayers`) the placement phase calls
`addLayerAtIndex(C, 5)` whose scan ends at running index 4 ≠ 5, a fatal
assertion: the tree is not grown to size 7. -/
theorem C7_scenario_counterexample :
    groupApplyChange 100 rootT [("C", none)]
        [{ id := "C", index := some 5, added := true, layers := none }] none = none
    ∧ groupApplyChange 100 rootT [("C", none)]
        [{ id := "C", index := some 5, added := true, type := some "layer",
           layers := none }] none = none :=
  ⟨rfl, rfl⟩

/-- C7, amended: the same addition succeeds with index 4 (and the record
carrying type `"layer"`, with an entry for "C" pre-registered in
`changedLayers`): the root's size becomes 7 and C is placed as the root's
last direct child, after G's closing marker. -/
theorem C7_scenario_amended :
    groupApplyChange 100 rootT [("C", none)]
        [{ id := "C", index := some 4, added := true, type := some "layer",
           layers := none }] none
      = some (.group "root" none none [leafA, groupG, .leaf .layer "C" none (some 4)],
              [("C", some (.leaf .layer "C" none (some 4)))])
    ∧ getSize (.group "root" none none [leafA, groupG, .leaf .layer "C" none (some 4)]) = 7
    ∧ (Layer.layers (.group "root" none none
        [leafA, groupG, .leaf .layer "C" none (some 4)])).getLast?
      = some (.leaf .layer "C" none (some 4)) :=
  ⟨rfl, rfl, rfl⟩

/-- C8: in the materialize phase, a record carrying an `index` and not
`added` is dispatched on the `changedLayers` lookup: id absent and `removed`
skips the record (the phase continues with the remaining records); id absent
and not `removed` fails fatally; id present reuses the already-materialized
entry (the processing continues through `materializeCont` on exactly that
entry). -/
theorem C8_materialize_lookup (fuel : Nat) (r : RawLayer) (rs : List RawLayer)
    (m : ChangedLayers) (fs : Nat)
    (hidx : r.index.isSome) (hadd : r.added = false) :
    (mapGet m r.id = none → r.removed = true →
        materialize (fuel + 1) (r :: rs) m fs = materialize fuel rs m fs)
    ∧ (mapGet m r.id = none → r.removed = false →
        materialize (fuel + 1) (r :: rs) m fs = none)
    ∧ (∀ e, mapGet m r.id = some e →
        materialize (fuel + 1) (r :: rs) m fs = materializeCont fuel r rs m fs e) := by
  obtain ⟨v, hv⟩ := Option.isSome_iff_exists.mp hidx
  refine ⟨fun habs hrem => ?_, fun habs hrem => ?_, fun e he => ?_⟩
  · simp [materialize, hv, hadd, habs, hrem]
  · simp [materialize, hv, hadd, habs, hrem]
  · simp [materialize, hv, hadd, he]

/-- A concrete non-`added` record with an `index`, for the C8 witness. -/
def rX : RawLayer := { id := "X", index := some 0, layers := none }

/-- Witness for C8: with "X" present in the map, the phase reuses the entry. -/
theorem C8_materialize_lookup_witness :
    materialize 6 [rX] [("X", some leafA)] 6
      = materializeCont 5 rX [] [("X", some leafA)] 6 (some leafA) :=
  (C8_materialize_lookup 5 rX [] [("X", some leafA)] 6 (by decide) (by decide)).2.2
    (some leafA) rfl

/-- C9: an `added` record whose id has no pre-existing entry in
`changedLayers` fails fatally instead of registering the node — the code
stores the freshly created node into `changedLayers[id].layer`, and when
`changedLayers[id]` is `undefined` that write throws. -/
theorem C9_added_requires_entry (fuel : Nat) (r : RawLayer) (rs : List RawLayer)
    (m : ChangedLayers) (fs : Nat)
    (hidx : r.index.isSome) (hadd : r.added = true) (habs : mapGet m r.id = none) :
    materialize (fuel + 1) (r :: rs) m fs = none := by
  obtain ⟨v, hv⟩ := Option.isSome_iff_exists.mp hidx
  cases hc : createLayer fuel true r with
  | none => simp [materialize, hv, hadd, hc]
  | some child => simp [materialize, hv, hadd, hc, mapSet_eq_none r.id child m habs]

/-- A concrete `added` record, for the C9 witness. -/
def rCadd : RawLayer :=
  { id := "C", index := some 5, added := true, type := some "layer", layers := none }

/-- Witness for C9: adding "C" with no pre-existing "C" entry is fatal. -/
theorem C9_added_requires_entry_witness :
    materialize 3 [rCadd] [("D", none)] 0 = none :=
  C9_added_requires_entry 2 rCadd [] [("D", none)] 0 (by decide) (by decide) rfl

/-- C10: when the id occurs exactly once in the owner's child sequence, a
successful `detach()` removes the node from that sequence but leaves the
node's `group` back-reference set (the source never clears `this.group`), so
a second `detach()` with no re-insertion scans the former owner again, finds
no matching child, and fails the `assert(index > -1)` fatally instead of
being a no-op. -/
theorem C10_detach_stale (id : String) (ls : List Layer)
    (h : (ls.map Layer.id).count id = 1) :
    ∃ ls', detach id (some ls) = some (some ls')
      ∧ id ∉ ls'.map Layer.id
      ∧ detach id (some ls') = none := by
  obtain ⟨i, h1, h2⟩ := count_one_splice id ls h
  refine ⟨spliceOut ls i, ?_, h2, ?_⟩
  · simp [detach, h1]
  · simp [detach, findIndexById_eq_none id _ h2]

/-- Witness for C10: a single-child owner; the second detach is fatal. -/
theorem C10_detach_stale_witness :
    (([Layer.leaf .layer "X" none none].map Layer.id).count "X" = 1)
    ∧ ∃ ls', detach "X" (some [Layer.leaf .layer "X" none none]) = some (some ls')
        ∧ "X" ∉ ls'.map Layer.id
        ∧ detach "X" (some ls') = none :=
  ⟨by decide, C10_detach_stale "X" [Layer.leaf .layer "X" none none] (by decide)⟩
